import Mathlib

/-!
Verification of the `@holmlibs/unzip` ZIP-extraction library.

The development shallowly embeds the library's source:
JavaScript strings become `List Char`, byte buffers become `List Nat`
(each element a byte value), `Promise`-returning fallible operations
become `Except`, and the POSIX `node:path` functions used by the code
(`join`, `resolve`, `sep`) are modelled segment-wise.
-/

namespace Unzip

instance {ε α : Type} [DecidableEq ε] [DecidableEq α] : DecidableEq (Except ε α) := fun x y =>
  match x, y with
  | .ok a, .ok b =>
    if h : a = b then .isTrue (by rw [h]) else .isFalse (by intro hx; cases hx; exact h rfl)
  | .error a, .error b =>
    if h : a = b then .isTrue (by rw [h]) else .isFalse (by intro hx; cases hx; exact h rfl)
  | .ok _, .error _ => .isFalse (by intro hx; cases hx)
  | .error _, .ok _ => .isFalse (by intro hx; cases hx)

/-! ## Path model (`node:path`, POSIX flavour)

The library runs on Bun/Node on a POSIX filesystem: `sep` is `'/'`,
`join` concatenates then normalizes, `resolve` makes a path absolute
against the current working directory (passed explicitly here as `cwd`)
and normalizes it. -/

/-- Split a character list on `'/'` (the POSIX separator). -/
def splitSlash : List Char → List (List Char)
  | [] => [[]]
  | '/' :: rest => [] :: splitSlash rest
  | c :: rest =>
    match splitSlash rest with
    | [] => [[c]]
    | s :: ss => (c :: s) :: ss

/-- The non-empty path segments of a path string. -/
def pathSegs (s : List Char) : List (List Char) :=
  (splitSlash s).filter (fun x => !x.isEmpty)

/-- Normalize segments of an absolute path: `.` is dropped, `..` pops the
previous segment (and vanishes at the root). -/
def normSegsAbs (segs : List (List Char)) : List (List Char) :=
  segs.foldl
    (fun acc s =>
      if s = ['.'] then acc
      else if s = ['.', '.'] then acc.dropLast
      else acc ++ [s])
    []

/-- Normalize segments of a relative path: `.` is dropped, `..` pops the
previous segment unless none remains or it is itself `..`, in which case
the `..` is kept. -/
def normSegsRel (segs : List (List Char)) : List (List Char) :=
  segs.foldl
    (fun acc s =>
      if s = ['.'] then acc
      else if s = ['.', '.'] then
        (if acc ≠ [] ∧ acc.getLast? ≠ some ['.', '.'] then acc.dropLast else acc ++ [s])
      else acc ++ [s])
    []

/-- Rebuild a path string from segments, separating with `'/'`. -/
def joinSegs : List (List Char) → List Char
  | [] => []
  | [s] => s
  | s :: rest => s ++ '/' :: joinSegs rest

/-- Whether a path string is absolute. -/
def isAbsPath (s : List Char) : Bool :=
  match s with
  | '/' :: _ => true
  | _ => false

/-- `path.normalize` (POSIX). -/
def normalizePath (s : List Char) : List Char :=
  if isAbsPath s then '/' :: joinSegs (normSegsAbs (pathSegs s))
  else
    let r := joinSegs (normSegsRel (pathSegs s))
    if r.isEmpty then ['.'] else r

/-- `path.join(a, b)` (POSIX): concatenate the non-empty parts with a
separator and normalize; two empty parts give `"."`. -/
def pjoin (a b : List Char) : List Char :=
  if a.isEmpty && b.isEmpty then ['.']
  else if a.isEmpty then normalizePath b
  else if b.isEmpty then normalizePath a
  else normalizePath (a ++ '/' :: b)

/-- `path.resolve(p)` (POSIX) against the working directory `cwd`. -/
def presolve (cwd p : List Char) : List Char :=
  if isAbsPath p then '/' :: joinSegs (normSegsAbs (pathSegs p))
  else '/' :: joinSegs (normSegsAbs (pathSegs cwd ++ pathSegs p))

/-- JavaScript `s.startsWith(p)`. -/
def strStartsWith : List Char → List Char → Bool
  | _, [] => true
  | [], _ :: _ => false
  | b :: bs, a :: as => a == b && strStartsWith bs as

/-! ## `validatePath` (src `utils` module)

`entryName.replace(/\\/g,'/')` then `.replace(/^(\.\.(\/?|$))+/, '')`
then `.replace(/^\/+/, '')` then `.replace(/^[A-Za-z]:(\/?|\\)/, '')`,
join onto the output directory and require the resolved result to stay
inside the resolved output directory. -/

/-- `entryName.replace(/\\/g, '/')`. -/
def toSlashes (s : List Char) : List Char :=
  s.map (fun c => if c = '\\' then '/' else c)

/-- `.replace(/^(\.\.(\/?|$))+/, '')`: strip any leading run of `..`
pairs, each optionally followed by one `/`. -/
def stripDotDot : List Char → List Char
  | '.' :: '.' :: '/' :: rest => stripDotDot rest
  | '.' :: '.' :: rest => stripDotDot rest
  | s => s

/-- `.replace(/^\/+/, '')`. -/
def stripLeadingSlashes : List Char → List Char
  | '/' :: rest => stripLeadingSlashes rest
  | s => s

def isAsciiLetter (c : Char) : Bool :=
  ('A' ≤ c && c ≤ 'Z') || ('a' ≤ c && c ≤ 'z')

/-- `.replace(/^[A-Za-z]:(\/?|\\)/, '')`: drop a leading drive letter,
its colon, and at most one following slash (the `\/?` alternative always
matches first, so the `\\` alternative of the regex never consumes). -/
def stripDrive (s : List Char) : List Char :=
  match s with
  | c :: ':' :: rest =>
    if isAsciiLetter c then
      match rest with
      | '/' :: rest2 => rest2
      | _ => rest
    else s
  | _ => s

/-- `validatePath(entryName, outputDir)` from the utils module, with the
process working directory made explicit. -/
def validatePath (cwd entryName outputDir : List Char) : Except (List Char) (List Char) :=
  let safeName := stripDrive (stripLeadingSlashes (stripDotDot (toSlashes entryName)))
  let targetPath := pjoin outputDir safeName
  let resolvedPath := presolve cwd targetPath
  let resolvedOutputDir := presolve cwd outputDir
  if resolvedPath ≠ resolvedOutputDir ∧
      ¬ strStartsWith resolvedPath (resolvedOutputDir ++ ['/']) = true then
    .error ("Rejected potentially unsafe path: ".data ++ safeName)
  else
    .ok targetPath

/-- C1: for every entry name and output root, when `validatePath` does not
fail it returns a target path whose resolution equals the resolved output
root or is a strict descendant of it (prefixed by the resolved root plus
the path separator); in particular no successful validation resolves
outside the target directory. -/
theorem validatePath_confines (cwd entryName outputDir t : List Char)
    (h : validatePath cwd entryName outputDir = .ok t) :
    presolve cwd t = presolve cwd outputDir ∨
      strStartsWith (presolve cwd t) (presolve cwd outputDir ++ ['/']) = true := by
  simp only [validatePath] at h
  split at h
  · exact absurd h (by simp)
  · rename_i hcond
    obtain rfl : pjoin outputDir
        (stripDrive (stripLeadingSlashes (stripDotDot (toSlashes entryName)))) = t := by
      simpa using h
    rcases not_and_or.mp hcond with hne | hpre
    · exact Or.inl (not_not.mp (fun hx => hne hx))
    · exact Or.inr (by simpa using hpre)

/-- Witness for C1 at the three attack names from the claim:
`../../etc/passwd`, `..\..\secret` and `C:/evil` all validate to paths
inside the output root `out` (with working directory `/base`). -/
theorem validatePath_confines_witness :
    (presolve "/base".data "out/etc/passwd".data = presolve "/base".data "out".data ∨
      strStartsWith (presolve "/base".data "out/etc/passwd".data)
        (presolve "/base".data "out".data ++ ['/']) = true) ∧
    (presolve "/base".data "out/secret".data = presolve "/base".data "out".data ∨
      strStartsWith (presolve "/base".data "out/secret".data)
        (presolve "/base".data "out".data ++ ['/']) = true) ∧
    (presolve "/base".data "out/evil".data = presolve "/base".data "out".data ∨
      strStartsWith (presolve "/base".data "out/evil".data)
        (presolve "/base".data "out".data ++ ['/']) = true) :=
  ⟨validatePath_confines "/base".data "../../etc/passwd".data "out".data
      "out/etc/passwd".data (by decide),
   validatePath_confines "/base".data "..\\..\\secret".data "out".data
      "out/secret".data (by decide),
   validatePath_confines "/base".data "C:/evil".data "out".data
      "out/evil".data (by decide)⟩

/-! ## Entry decompression (`decompressEntry`, src `reader.ts`)

Byte buffers are `List Nat`; the external `inflateRaw` codec is an
opaque parameter returning `Except` (callback error ↦ `.error`). -/

/-- ZIP compression method: no compression (stored). -/
def STORE : Nat := 0

/-- ZIP compression method: DEFLATE compression. -/
def DEFLATE : Nat := 8

/-- `buffer.subarray(start, end)`. -/
def sliceBytes (buffer : List Nat) (s e : Nat) : List Nat :=
  (buffer.drop s).take (e - s)

/-- `decompressEntry(buffer, [, compressionType, [start, end]])`. -/
def decompressEntry (inflateRaw : List Nat → Except String (List Nat))
    (buffer : List Nat) (compressionType s e : Nat) : Except String (List Nat) :=
  let rawData := sliceBytes buffer s e
  if compressionType = STORE then .ok rawData
  else if compressionType = DEFLATE then
    if rawData.length = 0 then .ok []
    else
      match inflateRaw rawData with
      | .ok d => .ok d
      | .error msg => .error ("Decompression failed: " ++ msg)
  else .error ("Unsupported compression method: " ++ toString compressionType)

/-- C7: `decompressEntry` dispatches on the compression method: method 0
returns the raw slice unchanged, method 8 on a zero-length raw slice
returns an empty byte sequence without consulting the inflate codec (the
result is the same for every codec), and every other method code fails
with an unsupported-method error naming the code. -/
theorem decompressEntry_dispatch (inflateRaw : List Nat → Except String (List Nat))
    (buffer : List Nat) (ct s e : Nat) :
    (ct = STORE → decompressEntry inflateRaw buffer ct s e = .ok (sliceBytes buffer s e)) ∧
    (ct = DEFLATE → sliceBytes buffer s e = [] →
      ∀ g, decompressEntry g buffer ct s e = .ok []) ∧
    (ct ≠ STORE → ct ≠ DEFLATE →
      decompressEntry inflateRaw buffer ct s e =
        .error ("Unsupported compression method: " ++ toString ct)) := by
  refine ⟨fun h => ?_, fun h hraw g => ?_, fun h0 h8 => ?_⟩
  · subst h; simp [decompressEntry, STORE]
  · subst h; simp [decompressEntry, DEFLATE, STORE, hraw]
  · simp [decompressEntry, h0, h8]

/-- Witness for C7: store passthrough, empty deflate short-circuit (under
a codec that always fails), and rejection of method 7. -/
theorem decompressEntry_dispatch_witness :
    decompressEntry (fun _ => .ok []) [5, 6] 0 0 2 = .ok [5, 6] ∧
    decompressEntry (fun _ => .error "boom") [5, 6] 8 1 1 = .ok [] ∧
    decompressEntry (fun _ => .ok []) [5, 6] 7 0 2 =
      .error ("Unsupported compression method: " ++ toString (7 : Nat)) :=
  ⟨(decompressEntry_dispatch (fun _ => .ok []) [5, 6] 0 0 2).1 rfl,
   (decompressEntry_dispatch (fun _ => .error "boom") [5, 6] 8 1 1).2.1 rfl (by decide)
     (fun _ => .error "boom"),
   (decompressEntry_dispatch (fun _ => .ok []) [5, 6] 7 0 2).2.2 (by decide) (by decide)⟩

/-! ## Per-handle lazy memoization (`createZipReader().getEntry`)

`getEntry` closes over `decompressedDataPromise : Promise<Buffer> | null`;
`getDecompressedPromise` installs the decompression on first use and
returns the cached promise afterwards.  The mutable cell becomes explicit
state, instrumented with an invocation counter for the decompressor. -/

structure MemoState where
  cache : Option (Except String (List Nat))
  invocations : Nat
  deriving DecidableEq

/-- The `getDecompressedPromise` helper: returns the cached computation,
installing it (and invoking the decompressor) only when absent. -/
def getDecompressedPromise (compute : Unit → Except String (List Nat))
    (st : MemoState) : Except String (List Nat) × MemoState :=
  match st.cache with
  | some p => (p, st)
  | none =>
    let p := compute ()
    (p, { cache := some p, invocations := st.invocations + 1 })

/-- The three handle operations; each begins by awaiting
`getDecompressedPromise()`. -/
inductive HandleOp where
  | getBuffer
  | getText
  | extractTo
  deriving DecidableEq

/-- Run a sequence of handle operations, returning the final cache state
and the decompressed result each operation observed. -/
def runHandleOps (compute : Unit → Except String (List Nat)) :
    List HandleOp → MemoState → MemoState × List (Except String (List Nat))
  | [], st => (st, [])
  | _ :: ops, st =>
    let r := getDecompressedPromise compute st
    let rest := runHandleOps compute ops r.2
    (rest.1, r.1 :: rest.2)

theorem runHandleOps_cached (compute : Unit → Except String (List Nat))
    (ops : List HandleOp) (p : Except String (List Nat)) (k : Nat) :
    runHandleOps compute ops ⟨some p, k⟩ = (⟨some p, k⟩, List.replicate ops.length p) := by
  induction ops with
  | nil => rfl
  | cons op ops ih => simp [runHandleOps, getDecompressedPromise, ih, List.replicate_succ]

/-- C9: on a fresh handle, any sequence of `getBuffer` / `getText` /
`extractTo` calls invokes the decompressor at most once, and every call
observes the very same decompression result. -/
theorem handle_decompress_once (compute : Unit → Except String (List Nat))
    (ops : List HandleOp) :
    (runHandleOps compute ops ⟨none, 0⟩).1.invocations ≤ 1 ∧
    (runHandleOps compute ops ⟨none, 0⟩).2 = List.replicate ops.length (compute ()) := by
  cases ops with
  | nil => exact ⟨by simp [runHandleOps], by simp [runHandleOps]⟩
  | cons op ops =>
    have h : runHandleOps compute (op :: ops) ⟨none, 0⟩ =
        (⟨some (compute ()), 1⟩, compute () :: List.replicate ops.length (compute ())) := by
      simp [runHandleOps, getDecompressedPromise, runHandleOps_cached]
    rw [h]
    exact ⟨le_refl 1, by simp [List.replicate_succ]⟩

/-! ## Central directory parser (`findEOCD` / `getEntries`, src `reader.ts`)

The archive is a `List Nat` of byte values.  `readUInt16LE` /
`readUInt32LE` are little-endian reads (totalized with a zero default;
the in-bounds claims are proved separately).  `console.warn` diagnostics
become a `ZipWarning` list threaded through the walk. -/

def MIN_LOCAL_HEADER_SIZE : Nat := 30

def MIN_CDFH_SIZE : Nat := 46

def EOCD_MIN_SIZE : Nat := 22

def CENTRAL_DIR_HEADER : Nat := 0x02014b50

def EOCD_SIGNATURE : Nat := 0x06054b50

def byteAt (buffer : List Nat) (i : Nat) : Nat := buffer.getD i 0

/-- `buffer.readUInt16LE(off)`. -/
def read16 (buffer : List Nat) (off : Nat) : Nat :=
  byteAt buffer off + 256 * byteAt buffer (off + 1)

/-- `buffer.readUInt32LE(off)`. -/
def read32 (buffer : List Nat) (off : Nat) : Nat :=
  byteAt buffer off + 256 * byteAt buffer (off + 1) +
    65536 * byteAt buffer (off + 2) + 16777216 * byteAt buffer (off + 3)

/-- `readUInt32LE` at a possibly-negative scan offset. -/
def read32i (buffer : List Nat) (off : Int) : Nat :=
  if 0 ≤ off then read32 buffer off.toNat else 0

/-- The backward scan of `findEOCD`: try `n` offsets starting at `off`
and stepping down, returning the first offset holding the EOCD
signature, `-1` when none does. -/
def scanBack (buffer : List Nat) : Nat → Int → Int
  | 0, _ => -1
  | n + 1, off =>
    if read32i buffer off = EOCD_SIGNATURE then off else scanBack buffer n (off - 1)

/-- First offset tried by the scan: `buffer.length - EOCD_MIN_SIZE`. -/
def eocdScanStart (buffer : List Nat) : Int :=
  (buffer.length : Int) - (EOCD_MIN_SIZE : Int)

/-- Number of loop iterations of `findEOCD`: offsets run from
`length - EOCD_MIN_SIZE` down to `length - maxScanLen` inclusive, where
`maxScanLen = min(length, 65535 + EOCD_MIN_SIZE)`. -/
def eocdScanCount (buffer : List Nat) : Nat :=
  let maxScanLen : Int := min (buffer.length : Int) (65535 + (EOCD_MIN_SIZE : Int))
  (eocdScanStart buffer - ((buffer.length : Int) - maxScanLen) + 1).toNat

/-- `findEOCD(buffer)`. -/
def findEOCD (buffer : List Nat) : Int :=
  scanBack buffer (eocdScanCount buffer) (eocdScanStart buffer)

/-- The offsets at which the scan loop actually performs its 4-byte read
(it stops after the first hit). -/
def scanReads (buffer : List Nat) : Nat → Int → List Int
  | 0, _ => []
  | n + 1, off =>
    off :: (if read32i buffer off = EOCD_SIGNATURE then [] else scanReads buffer n (off - 1))

/-- The 4-byte reads performed by `findEOCD`. -/
def eocdReads (buffer : List Nat) : List Int :=
  scanReads buffer (eocdScanCount buffer) (eocdScanStart buffer)

/-- The full window of offsets the scan may visit. -/
def eocdWindow (buffer : List Nat) : List Int :=
  (List.range (eocdScanCount buffer)).map (fun (i : Nat) => eocdScanStart buffer - (i : Int))

/-- One parsed entry: the `ZipEntry` tuple
`[entryName, compressionType, [dataStart, dataEnd]]` with the name kept
as its raw bytes. -/
structure RawEntry where
  name : List Nat
  compressionType : Nat
  dataStart : Nat
  dataEnd : Nat
  deriving DecidableEq

/-- `Map.set` on a name-keyed entry list: overwrite in place when the
name is present, append otherwise. -/
def mapSet (m : List RawEntry) (x : RawEntry) : List RawEntry :=
  if m.any (fun y => y.name == x.name) then
    m.map (fun y => if y.name == x.name then x else y)
  else m ++ [x]

/-- The `console.warn` diagnostics of the parser. -/
inductive ZipWarning where
  | badSignature (offset : Nat)
  | incompleteHeader (offset : Nat)
  | boundsExceeded (offset : Nat)
  | localHeaderOutOfBounds (localHeaderOffset : Nat)
  | dataEndOutOfBounds (dataEnd : Nat)
  | countMismatch (expected found : Nat)
  deriving DecidableEq

/-- The central-directory walk of `getEntries`: up to the fuel (the EOCD
entry count) iterations while the cursor stays inside the directory. -/
def walkCDFH (buffer : List Nat) (centralDirEnd : Nat) :
    Nat → Nat → List RawEntry → List ZipWarning → List RawEntry × List ZipWarning
  | 0, _, entries, warns => (entries, warns)
  | n + 1, currentOffset, entries, warns =>
    if currentOffset < centralDirEnd then
      if read32 buffer currentOffset = CENTRAL_DIR_HEADER then
        if currentOffset + MIN_CDFH_SIZE ≤ centralDirEnd then
          let compressionType := read16 buffer (currentOffset + 10)
          let compressedSize := read32 buffer (currentOffset + 20)
          let fileNameLength := read16 buffer (currentOffset + 28)
          let extraFieldLength := read16 buffer (currentOffset + 30)
          let fileCommentLength := read16 buffer (currentOffset + 32)
          let localHeaderOffset := read32 buffer (currentOffset + 42)
          let cdfhHeaderEnd := currentOffset + MIN_CDFH_SIZE
          let fileNameEnd := cdfhHeaderEnd + fileNameLength
          let extraFieldEnd := fileNameEnd + extraFieldLength
          let fileCommentEnd := extraFieldEnd + fileCommentLength
          if fileCommentEnd ≤ centralDirEnd then
            let entryName := sliceBytes buffer cdfhHeaderEnd fileNameEnd
            if localHeaderOffset + MIN_LOCAL_HEADER_SIZE ≤ buffer.length then
              let lfhFileNameLength := read16 buffer (localHeaderOffset + 26)
              let lfhExtraFieldLength := read16 buffer (localHeaderOffset + 28)
              let dataStartOffset :=
                localHeaderOffset + MIN_LOCAL_HEADER_SIZE + lfhFileNameLength + lfhExtraFieldLength
              let dataEndOffset := dataStartOffset + compressedSize
              if dataEndOffset ≤ buffer.length then
                walkCDFH buffer centralDirEnd n fileCommentEnd
                  (mapSet entries ⟨entryName, compressionType, dataStartOffset, dataEndOffset⟩)
                  warns
              else
                walkCDFH buffer centralDirEnd n fileCommentEnd entries
                  (warns ++ [.dataEndOutOfBounds dataEndOffset])
            else
              walkCDFH buffer centralDirEnd n fileCommentEnd entries
                (warns ++ [.localHeaderOutOfBounds localHeaderOffset])
          else (entries, warns ++ [.boundsExceeded currentOffset])
        else (entries, warns ++ [.incompleteHeader currentOffset])
      else (entries, warns ++ [.badSignature currentOffset])
    else (entries, warns)

/-- `getEntries(buffer)`: locate the EOCD, sanity-check the directory
bounds, walk the CDFH records, and warn when the parsed count differs
from the declared one. -/
def getEntries (buffer : List Nat) : Except String (List RawEntry × List ZipWarning) :=
  let eocdOffset := findEOCD buffer
  if eocdOffset = -1 then .error "End of Central Directory record not found."
  else
    let e := eocdOffset.toNat
    let entryCount := read16 buffer (e + 10)
    let centralDirSize := read32 buffer (e + 12)
    let centralDirOffset := read32 buffer (e + 16)
    if e < centralDirOffset + centralDirSize then
      .error "Central Directory information seems corrupt."
    else
      let r := walkCDFH buffer (centralDirOffset + centralDirSize) entryCount centralDirOffset [] []
      if r.1.length ≠ entryCount then
        .ok (r.1, r.2 ++ [.countMismatch entryCount r.1.length])
      else .ok (r.1, r.2)

/-- Field accessors for statements: the EOCD offset (as a `Nat`) and the
EOCD fields the parser reads. -/
def eocdOffsetOf (buffer : List Nat) : Nat := (findEOCD buffer).toNat

def declaredEntryCount (buffer : List Nat) : Nat := read16 buffer (eocdOffsetOf buffer + 10)

def centralDirSizeOf (buffer : List Nat) : Nat := read32 buffer (eocdOffsetOf buffer + 12)

def centralDirOffsetOf (buffer : List Nat) : Nat := read32 buffer (eocdOffsetOf buffer + 16)

def exceptIsOk {ε α : Type} : Except ε α → Bool
  | .ok _ => true
  | .error _ => false

theorem scanBack_eq_neg_one_iff (buffer : List Nat) (n : Nat) :
    ∀ off : Int, (scanBack buffer n off = -1 ↔
      ∀ i : Nat, i < n → read32i buffer (off - i) ≠ EOCD_SIGNATURE) := by
  induction n with
  | zero => intro off; simp [scanBack]
  | succ n ih =>
    intro off
    by_cases h : read32i buffer off = EOCD_SIGNATURE
    · have hoff : 0 ≤ off := by
        by_contra hneg
        rw [read32i, if_neg (by omega)] at h
        exact absurd h (by decide)
      apply iff_of_false
      · rw [scanBack, if_pos h]; omega
      · intro hall; exact absurd h (by simpa using hall 0 (Nat.succ_pos n))
    · rw [scanBack, if_neg h, ih (off - 1)]
      constructor
      · intro hall i hi
        cases i with
        | zero => simpa using h
        | succ j =>
          have hj := hall j (by omega)
          have heq : off - ((j : Int) + 1) = off - 1 - j := by ring
          push_cast
          rw [heq]
          exact hj
      · intro hall i hi
        have hj := hall (i + 1) (by omega)
        have heq : off - ((i : Int) + 1) = off - 1 - i := by ring
        push_cast at hj
        rw [heq] at hj
        exact hj

theorem findEOCD_eq_neg_one_iff (buffer : List Nat) :
    findEOCD buffer = -1 ↔ ∀ off ∈ eocdWindow buffer, read32i buffer off ≠ EOCD_SIGNATURE := by
  rw [findEOCD, scanBack_eq_neg_one_iff]
  constructor
  · intro hall off hoff
    rw [eocdWindow, List.mem_map] at hoff
    obtain ⟨i, hi, rfl⟩ := hoff
    exact hall i (List.mem_range.mp hi)
  · intro hall i hi
    refine hall _ ?_
    rw [eocdWindow, List.mem_map]
    exact ⟨i, List.mem_range.mpr hi, rfl⟩

/-- C5: parsing fails exactly when (a) no EOCD signature occurs in the
backward-scan window over the last `65535 + 22` bytes (error
"End of Central Directory record not found.") or (b) the found EOCD's
`centralDirOffset + centralDirSize` exceeds the EOCD offset (error
"Central Directory information seems corrupt."); these are the only
errors, and in all other cases `getEntries` returns an index. -/
theorem getEntries_error_characterization (buffer : List Nat) :
    (getEntries buffer = .error "End of Central Directory record not found." ↔
      ∀ off ∈ eocdWindow buffer, read32i buffer off ≠ EOCD_SIGNATURE) ∧
    (getEntries buffer = .error "Central Directory information seems corrupt." ↔
      findEOCD buffer ≠ -1 ∧
        eocdOffsetOf buffer < centralDirOffsetOf buffer + centralDirSizeOf buffer) ∧
    (∀ msg, getEntries buffer = .error msg →
      msg = "End of Central Directory record not found." ∨
        msg = "Central Directory information seems corrupt.") ∧
    (findEOCD buffer ≠ -1 →
      ¬ eocdOffsetOf buffer < centralDirOffsetOf buffer + centralDirSizeOf buffer →
      exceptIsOk (getEntries buffer) = true) := by
  by_cases h1 : findEOCD buffer = -1
  · have hE : getEntries buffer = .error "End of Central Directory record not found." := by
      simp [getEntries, h1]
    refine ⟨iff_of_true hE ((findEOCD_eq_neg_one_iff buffer).mp h1),
      iff_of_false (by rw [hE]; decide) ?_, ?_, ?_⟩
    · rintro ⟨hne, _⟩; exact hne h1
    · intro msg hmsg
      rw [hE] at hmsg
      injection hmsg with hmsg
      exact Or.inl hmsg.symm
    · intro hne _; exact absurd h1 hne
  · by_cases h2 : eocdOffsetOf buffer < centralDirOffsetOf buffer + centralDirSizeOf buffer
    · have h2' := h2
      simp only [eocdOffsetOf, centralDirOffsetOf, centralDirSizeOf] at h2'
      have hC : getEntries buffer = .error "Central Directory information seems corrupt." := by
        simp [getEntries, h1, h2']
      refine ⟨iff_of_false (by rw [hC]; decide) ?_, iff_of_true hC ⟨h1, h2⟩, ?_, ?_⟩
      · intro hall; exact h1 ((findEOCD_eq_neg_one_iff buffer).mpr hall)
      · intro msg hmsg
        rw [hC] at hmsg
        injection hmsg with hmsg
        exact Or.inr hmsg.symm
      · intro _ hs; exact absurd h2 hs
    · have h2' := h2
      simp only [eocdOffsetOf, centralDirOffsetOf, centralDirSizeOf] at h2'
      have hO : ∃ res, getEntries buffer = .ok res := by
        simp only [getEntries, if_neg h1, if_neg h2']
        split
        · exact ⟨_, rfl⟩
        · exact ⟨_, rfl⟩
      obtain ⟨res, hres⟩ := hO
      refine ⟨iff_of_false (by rw [hres]; simp) ?_,
        iff_of_false (by rw [hres]; simp) (fun hx => absurd hx.2 h2), ?_, ?_⟩
      · intro hall; exact h1 ((findEOCD_eq_neg_one_iff buffer).mpr hall)
      · intro msg hmsg; rw [hres] at hmsg; exact absurd hmsg (by simp)
      · intro _ _; rw [hres]; rfl

theorem scanReads_mem (buffer : List Nat) :
    ∀ (n : Nat) (off x : Int), x ∈ scanReads buffer n off → off - n < x ∧ x ≤ off := by
  intro n
  induction n with
  | zero => intro off x hx; simp [scanReads] at hx
  | succ n ih =>
    intro off x hx
    rw [scanReads] at hx
    rcases List.mem_cons.mp hx with rfl | hx
    · constructor
      · have : (0 : Int) < (n : Int) + 1 := by positivity
        push_cast
        omega
      · exact le_refl x
    · split at hx
      · simp at hx
      · have := ih (off - 1) x hx
        push_cast
        omega

/-- C10: the EOCD scan stays inside the buffer: a buffer shorter than 22
bytes triggers no read at all and parsing fails with the EOCD-not-found
error, and on longer buffers every 4-byte read of the scan happens at an
offset between `0` and `length - 22`. -/
theorem eocd_scan_reads_in_bounds (buffer : List Nat) :
    (buffer.length < 22 → eocdReads buffer = [] ∧
      getEntries buffer = .error "End of Central Directory record not found.") ∧
    (22 ≤ buffer.length →
      ∀ off ∈ eocdReads buffer, 0 ≤ off ∧ off + 22 ≤ (buffer.length : Int)) := by
  constructor
  · intro hlen
    have hmin : min ((buffer.length : Int)) (65535 + (EOCD_MIN_SIZE : Int)) = (buffer.length : Int) := by
      apply min_eq_left
      simp only [EOCD_MIN_SIZE]
      omega
    have hcount : eocdScanCount buffer = 0 := by
      simp only [eocdScanCount, eocdScanStart, hmin, EOCD_MIN_SIZE]
      omega
    have hreads : eocdReads buffer = [] := by
      rw [eocdReads, hcount]; rfl
    have hfind : findEOCD buffer = -1 := by
      rw [findEOCD, hcount]; rfl
    exact ⟨hreads, by simp [getEntries, hfind]⟩
  · intro hlen off hoff
    have hm1 : min ((buffer.length : Int)) (65535 + (EOCD_MIN_SIZE : Int)) ≤ (buffer.length : Int) :=
      min_le_left _ _
    have hm2 : (EOCD_MIN_SIZE : Int) ≤ min ((buffer.length : Int)) (65535 + (EOCD_MIN_SIZE : Int)) := by
      apply le_min
      · simp only [EOCD_MIN_SIZE]; omega
      · simp only [EOCD_MIN_SIZE]; omega
    have hcount : (eocdScanCount buffer : Int) =
        eocdScanStart buffer -
          ((buffer.length : Int) - min ((buffer.length : Int)) (65535 + (EOCD_MIN_SIZE : Int))) + 1 := by
      rw [eocdScanCount]
      apply Int.toNat_of_nonneg
      simp only [eocdScanStart, EOCD_MIN_SIZE] at *
      omega
    have hmem := scanReads_mem buffer (eocdScanCount buffer) (eocdScanStart buffer) off hoff
    simp only [eocdScanStart, EOCD_MIN_SIZE] at hmem hcount ⊢
    omega

/-- The walk `getEntries` performs once its open-time checks passed. -/
def walkResult (buffer : List Nat) : List RawEntry × List ZipWarning :=
  walkCDFH buffer (centralDirOffsetOf buffer + centralDirSizeOf buffer)
    (declaredEntryCount buffer) (centralDirOffsetOf buffer) [] []

/-- C6: during the central-directory walk a signature mismatch or a
variable-length region overflowing the directory bounds stops parsing and
returns the entries found so far with a diagnostic (not an error), while
an out-of-bounds local-header offset or data end skips just that entry
and continues at the next CDFH; consequently, once the open-time checks
passed, a declared count exceeding the parsable records still yields the
partial index plus a count-mismatch diagnostic. -/
theorem walkCDFH_fault_policy :
    (∀ (buffer : List Nat) (cde n off : Nat) (entries : List RawEntry) (warns : List ZipWarning),
      off < cde →
      read32 buffer off ≠ CENTRAL_DIR_HEADER →
      walkCDFH buffer cde (n + 1) off entries warns =
        (entries, warns ++ [.badSignature off])) ∧
    (∀ (buffer : List Nat) (cde n off : Nat) (entries : List RawEntry) (warns : List ZipWarning),
      off < cde →
      read32 buffer off = CENTRAL_DIR_HEADER →
      off + MIN_CDFH_SIZE ≤ cde →
      ¬ off + MIN_CDFH_SIZE + read16 buffer (off + 28) + read16 buffer (off + 30) +
          read16 buffer (off + 32) ≤ cde →
      walkCDFH buffer cde (n + 1) off entries warns =
        (entries, warns ++ [.boundsExceeded off])) ∧
    (∀ (buffer : List Nat) (cde n off : Nat) (entries : List RawEntry) (warns : List ZipWarning),
      off < cde →
      read32 buffer off = CENTRAL_DIR_HEADER →
      off + MIN_CDFH_SIZE ≤ cde →
      off + MIN_CDFH_SIZE + read16 buffer (off + 28) + read16 buffer (off + 30) +
        read16 buffer (off + 32) ≤ cde →
      ¬ read32 buffer (off + 42) + MIN_LOCAL_HEADER_SIZE ≤ buffer.length →
      walkCDFH buffer cde (n + 1) off entries warns =
        walkCDFH buffer cde n
          (off + MIN_CDFH_SIZE + read16 buffer (off + 28) + read16 buffer (off + 30) +
            read16 buffer (off + 32))
          entries (warns ++ [.localHeaderOutOfBounds (read32 buffer (off + 42))])) ∧
    (∀ (buffer : List Nat) (cde n off : Nat) (entries : List RawEntry) (warns : List ZipWarning),
      off < cde →
      read32 buffer off = CENTRAL_DIR_HEADER →
      off + MIN_CDFH_SIZE ≤ cde →
      off + MIN_CDFH_SIZE + read16 buffer (off + 28) + read16 buffer (off + 30) +
        read16 buffer (off + 32) ≤ cde →
      read32 buffer (off + 42) + MIN_LOCAL_HEADER_SIZE ≤ buffer.length →
      ¬ read32 buffer (off + 42) + MIN_LOCAL_HEADER_SIZE +
          read16 buffer (read32 buffer (off + 42) + 26) +
          read16 buffer (read32 buffer (off + 42) + 28) + read32 buffer (off + 20) ≤
          buffer.length →
      walkCDFH buffer cde (n + 1) off entries warns =
        walkCDFH buffer cde n
          (off + MIN_CDFH_SIZE + read16 buffer (off + 28) + read16 buffer (off + 30) +
            read16 buffer (off + 32))
          entries
          (warns ++ [.dataEndOutOfBounds
            (read32 buffer (off + 42) + MIN_LOCAL_HEADER_SIZE +
              read16 buffer (read32 buffer (off + 42) + 26) +
              read16 buffer (read32 buffer (off + 42) + 28) + read32 buffer (off + 20))])) ∧
    (∀ buffer : List Nat,
      findEOCD buffer ≠ -1 →
      ¬ eocdOffsetOf buffer < centralDirOffsetOf buffer + centralDirSizeOf buffer →
      (walkResult buffer).1.length ≠ declaredEntryCount buffer →
      getEntries buffer = .ok ((walkResult buffer).1,
        (walkResult buffer).2 ++
          [.countMismatch (declaredEntryCount buffer) (walkResult buffer).1.length])) := by
  refine ⟨?_, ?_, ?_, ?_, ?_⟩
  · intro buffer cde n off entries warns hlt hsig
    rw [walkCDFH]
    simp [hlt, hsig]
  · intro buffer cde n off entries warns hlt hsig h46 hcomment
    rw [walkCDFH]
    simp [hlt, hsig, h46, hcomment]
  · intro buffer cde n off entries warns hlt hsig h46 hcomment hlho
    rw [walkCDFH]
    simp [hlt, hsig, h46, hcomment, hlho]
  · intro buffer cde n off entries warns hlt hsig h46 hcomment hlho hde
    rw [walkCDFH]
    simp [hlt, hsig, h46, hcomment, hlho, hde]
  · intro buffer h1 h2 h3
    have h2' := h2
    have h3' := h3
    simp only [eocdOffsetOf, centralDirOffsetOf, centralDirSizeOf, declaredEntryCount,
      walkResult] at h2' h3'
    simp only [getEntries, if_neg h1, if_neg h2', if_pos h3', walkResult, declaredEntryCount,
      centralDirOffsetOf, centralDirSizeOf, eocdOffsetOf]

/-- The data-range shape of an entry in the index, as the claim states
it: produced from some CDFH offset via the local file header. -/
def entryWellFormed (buffer : List Nat) (x : RawEntry) : Prop :=
  ∃ cdfhOff : Nat,
    x.dataStart = read32 buffer (cdfhOff + 42) + MIN_LOCAL_HEADER_SIZE +
        read16 buffer (read32 buffer (cdfhOff + 42) + 26) +
        read16 buffer (read32 buffer (cdfhOff + 42) + 28) ∧
    x.dataEnd = x.dataStart + read32 buffer (cdfhOff + 20) ∧
    x.dataEnd ≤ buffer.length

theorem mem_mapSet {m : List RawEntry} {x y : RawEntry} (h : y ∈ mapSet m x) :
    y ∈ m ∨ y = x := by
  rw [mapSet] at h
  split at h
  · obtain ⟨a, ha, hay⟩ := List.mem_map.mp h
    by_cases hb : (a.name == x.name) = true
    · right; rw [if_pos hb] at hay; exact hay.symm
    · left; rw [if_neg hb] at hay; exact hay ▸ ha
  · rcases List.mem_append.mp h with h | h
    · exact Or.inl h
    · right; simpa using h

theorem walkCDFH_wf (buffer : List Nat) (cde : Nat) :
    ∀ (n off : Nat) (entries : List RawEntry) (warns : List ZipWarning),
      (∀ x ∈ entries, entryWellFormed buffer x) →
      ∀ x ∈ (walkCDFH buffer cde n off entries warns).1, entryWellFormed buffer x := by
  intro n
  induction n with
  | zero => intro off entries warns hinv x hx; exact hinv x hx
  | succ n ih =>
    intro off entries warns hinv x hx
    simp only [walkCDFH] at hx
    split at hx
    · split at hx
      · split at hx
        · split at hx
          · split at hx
            · split at hx
              · refine ih _ _ _ (fun y hy => ?_) x hx
                rcases mem_mapSet hy with hy | rfl
                · exact hinv y hy
                · rename_i hde
                  exact ⟨off, rfl, rfl, hde⟩
              · exact ih _ _ _ hinv x hx
            · exact ih _ _ _ hinv x hx
          · exact hinv x hx
        · exact hinv x hx
      · exact hinv x hx
    · exact hinv x hx

/-- C8: every entry inserted into the index has
`dataStart = localHeaderOffset + 30 + lfhFilenameLength + lfhExtraFieldLength`
and `dataEnd = dataStart + compressedSize` for the little-endian fields
at LFH offsets +26/+28 and CDFH offset +20, with `dataEnd` inside the
buffer. -/
theorem getEntries_data_ranges (buffer : List Nat) (res : List RawEntry × List ZipWarning)
    (h : getEntries buffer = .ok res) :
    ∀ x ∈ res.1, entryWellFormed buffer x := by
  intro x hx
  simp only [getEntries] at h
  split at h
  · exact absurd h (by simp)
  · split at h
    · exact absurd h (by simp)
    · split at h
      · injection h with h
        rw [← h] at hx
        exact walkCDFH_wf buffer _ _ _ _ _ (by simp) x hx
      · injection h with h
        rw [← h] at hx
        exact walkCDFH_wf buffer _ _ _ _ _ (by simp) x hx

/-! ## Concrete archives for the witnesses -/

/-- A minimal well-formed archive: a 30-byte local file header at offset
0, one CDFH at offset 30 declaring the single stored entry `"a"`
(byte 97) with zero compressed size, and the EOCD at offset 77. -/
def demoArchive : List Nat :=
  [0, 0, 0, 0, 0, 0, 0, 0, 0, 0, 0, 0, 0, 0, 0, 0, 0, 0, 0, 0, 0, 0, 0, 0, 0, 0, 0, 0, 0, 0,
   0x50, 0x4B, 0x01, 0x02, 0, 0, 0, 0, 0, 0, 0, 0, 0, 0, 0, 0, 0, 0, 0, 0,
   0, 0, 0, 0, 0, 0, 0, 0, 1, 0, 0, 0, 0, 0, 0, 0, 0, 0, 0, 0, 0, 0, 0, 0, 0, 0,
   97,
   0x50, 0x4B, 0x05, 0x06, 0, 0, 0, 0, 0, 0, 1, 0, 47, 0, 0, 0, 30, 0, 0, 0, 0, 0]

/-- An archive declaring two entries whose central directory starts with
garbage instead of a CDFH signature. -/
def badSignatureArchive : List Nat :=
  [1, 2, 3, 4,
   0x50, 0x4B, 0x05, 0x06, 0, 0, 0, 0, 0, 0, 2, 0, 4, 0, 0, 0, 0, 0, 0, 0, 0, 0]

/-- An EOCD whose central-directory size overruns the EOCD offset. -/
def corruptArchive : List Nat :=
  [0x50, 0x4B, 0x05, 0x06, 0, 0, 0, 0, 0, 0, 0, 0, 5, 0, 0, 0, 0, 0, 0, 0, 0, 0]

/-- A CDFH whose filename length makes its variable region overflow the
directory bounds. -/
def cdfhOverflowBuffer : List Nat :=
  [0x50, 0x4B, 0x01, 0x02] ++ List.replicate 24 0 ++ [1]

/-- A CDFH whose local-header offset (200) lies outside the buffer. -/
def lfhOutOfBoundsBuffer : List Nat :=
  [0x50, 0x4B, 0x01, 0x02] ++ List.replicate 38 0 ++ [200]

/-- A CDFH whose compressed size (100) pushes the data end outside the
buffer. -/
def dataOutOfBoundsBuffer : List Nat :=
  [0x50, 0x4B, 0x01, 0x02] ++ List.replicate 16 0 ++ [100] ++ List.replicate 9 0

/-- Witness for C5: the empty buffer fails with the EOCD error via the
no-signature characterization, the corrupt EOCD fails with the
corruption error, and the demo archive parses without throwing. -/
theorem getEntries_error_characterization_witness :
    getEntries ([] : List Nat) = .error "End of Central Directory record not found." ∧
    getEntries corruptArchive = .error "Central Directory information seems corrupt." ∧
    exceptIsOk (getEntries demoArchive) = true :=
  ⟨(getEntries_error_characterization []).1.mpr (by decide),
   (getEntries_error_characterization corruptArchive).2.1.mpr ⟨by decide, by decide⟩,
   (getEntries_error_characterization demoArchive).2.2.2 (by decide) (by decide)⟩

/-- Witness for C6, one concrete buffer per fault branch. -/
theorem walkCDFH_fault_policy_witness :
    walkCDFH ([] : List Nat) 1 1 0 [] [] = ([], [.badSignature 0]) ∧
    walkCDFH cdfhOverflowBuffer 46 1 0 [] [] = ([], [.boundsExceeded 0]) ∧
    walkCDFH lfhOutOfBoundsBuffer 46 1 0 [] [] = ([], [.localHeaderOutOfBounds 200]) ∧
    walkCDFH dataOutOfBoundsBuffer 46 1 0 [] [] = ([], [.dataEndOutOfBounds 130]) ∧
    getEntries badSignatureArchive = .ok ([], [.badSignature 0, .countMismatch 2 0]) :=
  ⟨walkCDFH_fault_policy.1 [] 1 0 0 [] [] (by decide) (by decide),
   walkCDFH_fault_policy.2.1 cdfhOverflowBuffer 46 0 0 [] [] (by decide) (by decide)
     (by decide) (by decide),
   (walkCDFH_fault_policy.2.2.1 lfhOutOfBoundsBuffer 46 0 0 [] [] (by decide) (by decide)
     (by decide) (by decide) (by decide)).trans (by decide),
   (walkCDFH_fault_policy.2.2.2.1 dataOutOfBoundsBuffer 46 0 0 [] [] (by decide) (by decide)
     (by decide) (by decide) (by decide) (by decide)).trans (by decide),
   (walkCDFH_fault_policy.2.2.2.2 badSignatureArchive (by decide) (by decide)
     (by decide)).trans (by decide)⟩

/-- Witness for C8 at the demo archive's single entry. -/
theorem getEntries_data_ranges_witness :
    entryWellFormed demoArchive ⟨[97], 0, 30, 30⟩ :=
  getEntries_data_ranges demoArchive ([⟨[97], 0, 30, 30⟩], []) (by decide)
    ⟨[97], 0, 30, 30⟩ (by decide)

/-- Witness for C10: the empty buffer performs no scan read and fails,
and the demo archive's single scan read (offset 77) is in bounds. -/
theorem eocd_scan_reads_in_bounds_witness :
    (eocdReads ([] : List Nat) = [] ∧
      getEntries ([] : List Nat) = .error "End of Central Directory record not found.") ∧
    (0 ≤ (77 : Int) ∧ (77 : Int) + 22 ≤ ((demoArchive.length : Int))) :=
  ⟨(eocd_scan_reads_in_bounds []).1 (by decide),
   (eocd_scan_reads_in_bounds demoArchive).2 (by decide) 77 (by decide)⟩

/-! ## Concurrent extractor (`extractAll`, src `extractor` module)

`extractAll` drains the entry iterator through a pool of at most
`effectiveConcurrencyLimit` in-flight `processEntry` tasks.  Each task is
wrapped in try/catch/finally: its own outcome (success or failure) never
rejects the batch, and `finally` increments the shared counter and fires
`onProgress(current, entries.size)`.  Entries are modelled as
`(name, succeeds?)` pairs; the event loop's completion order is an
arbitrary `pick` function choosing which in-flight task settles next;
`onProgress` calls are collected into a trace.  The loop becomes a
fuel-indexed step function — `none` models the non-termination the JS
loop would exhibit were the limit not clamped. -/

/-- A JavaScript `number` as far as the concurrency clamp observes it. -/
inductive JSNumber where
  | nan
  | posInf
  | negInf
  | num (x : Int)
  deriving DecidableEq

/-- `concurrencyLimit < 1` (false on NaN, as in JS). -/
def jsLtOne : JSNumber → Bool
  | .nan => false
  | .posInf => false
  | .negInf => true
  | .num x => x < 1

/-- `Number.isFinite(concurrencyLimit)`. -/
def jsIsFinite : JSNumber → Bool
  | .num _ => true
  | _ => false

/-- `concurrencyLimit < 1 || !Number.isFinite(concurrencyLimit) ? 1 :
concurrencyLimit`. -/
def effectiveConcurrencyLimit (c : JSNumber) : Int :=
  if jsLtOne c || !jsIsFinite c then 1 else
    match c with
    | .num x => x
    | _ => 1

/-- The extractor's loop state: the iterator's tail, the in-flight pool,
the names whose task already settled, the names whose task failed (the
`console.error` log), the shared `current` counter and the `onProgress`
trace. -/
structure ExtractState where
  remaining : List (String × Bool)
  active : List (String × Bool)
  processed : List String
  failedLog : List String
  current : Nat
  trace : List (Nat × Nat)
  deriving DecidableEq

/-- The inner admission loop: `while (activePromises.length <
effectiveConcurrencyLimit && !iteratorResult.done)` push the next entry
into the pool. -/
def fillPool (limit : Int) : List (String × Bool) → List (String × Bool) →
    List (String × Bool) × List (String × Bool)
  | [], active => ([], active)
  | e :: rest, active =>
    if (active.length : Int) < limit then fillPool limit rest (active ++ [e])
    else (e :: rest, active)

/-- One settled task (`processEntry`'s catch/finally plus its `.then`
removal from the pool): the picked in-flight entry leaves the pool, a
failure is logged but swallowed, `current` increments and the progress
callback fires. -/
def extractLoop (total : Nat) (limit : Int) (pick : Nat → Nat) :
    Nat → Nat → ExtractState → Option ExtractState
  | 0, _, _ => none
  | fuel + 1, step, s =>
    let fa := fillPool limit s.remaining s.active
    if fa.1 = [] ∧ fa.2 = [] then
      some { s with remaining := fa.1, active := fa.2 }
    else if 0 < fa.2.length then
      let e := fa.2.getD (pick step % fa.2.length) ("", true)
      extractLoop total limit pick fuel (step + 1)
        { remaining := fa.1
          active := fa.2.eraseIdx (pick step % fa.2.length)
          processed := s.processed ++ [e.1]
          failedLog := s.failedLog ++ (if e.2 then [] else [e.1])
          current := s.current + 1
          trace := s.trace ++ [(s.current + 1, total)] }
    else extractLoop total limit pick fuel (step + 1) { s with remaining := fa.1, active := fa.2 }

/-- `extractAll(buffer, entries, outputDir, onProgress, concurrencyLimit)`:
clamp the limit, fire `onProgress(0, entries.size)`, then run the loop
(the fuel `entries.length + 1` covers every run of the clamped loop). -/
def extractAllRun (entries : List (String × Bool)) (limit : JSNumber) (pick : Nat → Nat) :
    Option ExtractState :=
  extractLoop entries.length (effectiveConcurrencyLimit limit) pick (entries.length + 1) 0
    { remaining := entries, active := [], processed := [], failedLog := [], current := 0,
      trace := [(0, entries.length)] }

theorem effectiveConcurrencyLimit_pos (c : JSNumber) : 1 ≤ effectiveConcurrencyLimit c := by
  cases c with
  | num x =>
    rw [effectiveConcurrencyLimit]
    split
    · exact le_refl 1
    · rename_i hc
      simp [jsLtOne, jsIsFinite] at hc
      omega
  | nan => exact le_refl 1
  | posInf => exact le_refl 1
  | negInf => exact le_refl 1

theorem fillPool_shape (limit : Int) :
    ∀ (rem act : List (String × Bool)), ∃ n, n ≤ rem.length ∧
      fillPool limit rem act = (rem.drop n, act ++ rem.take n) := by
  intro rem
  induction rem with
  | nil => intro act; exact ⟨0, by simp [fillPool]⟩
  | cons e rest ih =>
    intro act
    by_cases hc : (act.length : Int) < limit
    · obtain ⟨n, hn, heq⟩ := ih (act ++ [e])
      refine ⟨n + 1, by simpa using hn, ?_⟩
      rw [fillPool, if_pos hc, heq]
      simp
    · exact ⟨0, by simp [fillPool, hc]⟩

theorem fillPool_nonempty (limit : Int) (hlim : 1 ≤ limit)
    (rem act : List (String × Bool)) (hrem : rem ≠ []) :
    (fillPool limit rem act).2 ≠ [] := by
  cases rem with
  | nil => exact absurd rfl hrem
  | cons e rest =>
    by_cases hc : (act.length : Int) < limit
    · rw [fillPool, if_pos hc]
      obtain ⟨n, _, heq⟩ := fillPool_shape limit rest (act ++ [e])
      rw [heq]
      simp
    · intro hact
      have hact' : act = [] := by
        rw [fillPool, if_neg hc] at hact
        exact hact
      rw [hact'] at hc
      simp at hc
      omega

theorem extractLoop_spec (limit : Int) (hlim : 1 ≤ limit) (pick : Nat → Nat) (total : Nat) :
    ∀ (fuel : Nat) (rem act : List (String × Bool)) (proc flog : List String) (c : Nat)
      (tr : List (Nat × Nat)) (step : Nat),
      rem.length + act.length < fuel →
      total = rem.length + act.length + c →
      ∃ st, extractLoop total limit pick fuel step ⟨rem, act, proc, flog, c, tr⟩ = some st ∧
        st.remaining = [] ∧ st.active = [] ∧ st.current = total ∧
        st.processed.length = proc.length + (rem.length + act.length) ∧
        st.trace = tr ++
          (List.range' (c + 1) (rem.length + act.length)).map (fun i => (i, total)) := by
  intro fuel
  induction fuel with
  | zero => intro rem act proc flog c tr step hfuel _; omega
  | succ fuel ih =>
    intro rem act proc flog c tr step hfuel htotal
    obtain ⟨n, hn, heq⟩ := fillPool_shape limit rem act
    have hlensum : (fillPool limit rem act).1.length + (fillPool limit rem act).2.length =
        rem.length + act.length := by
      rw [heq]
      simp only [List.length_drop, List.length_append, List.length_take]
      omega
    simp only [extractLoop]
    by_cases h0 : (fillPool limit rem act).1 = [] ∧ (fillPool limit rem act).2 = []
    · have hsum : rem.length + act.length = 0 := by
        rw [← hlensum, h0.1, h0.2]
        rfl
      rw [if_pos h0]
      refine ⟨_, rfl, h0.1, h0.2, ?_, ?_, ?_⟩
      · show c = total
        omega
      · show proc.length = proc.length + (rem.length + act.length)
        omega
      · show tr = tr ++ (List.range' (c + 1) (rem.length + act.length)).map (fun i => (i, total))
        rw [hsum]
        simp
    · have hact2 : (fillPool limit rem act).2 ≠ [] := by
        intro hx
        have hremne : rem ≠ [] := by
          intro hr
          apply h0
          refine ⟨?_, hx⟩
          rw [heq, hr, List.drop_nil]
        exact fillPool_nonempty limit hlim rem act hremne hx
      have hactpos : 0 < (fillPool limit rem act).2.length := List.length_pos.mpr hact2
      have hi : pick step % (fillPool limit rem act).2.length <
          (fillPool limit rem act).2.length := Nat.mod_lt _ hactpos
      have herase : ((fillPool limit rem act).2.eraseIdx
          (pick step % (fillPool limit rem act).2.length)).length + 1 =
          (fillPool limit rem act).2.length := List.length_eraseIdx_add_one hi
      rw [if_neg h0, if_pos hactpos]
      obtain ⟨st, hst, hr, ha, hcur, hp, ht⟩ := ih (fillPool limit rem act).1
        ((fillPool limit rem act).2.eraseIdx (pick step % (fillPool limit rem act).2.length))
        (proc ++ [((fillPool limit rem act).2.getD
          (pick step % (fillPool limit rem act).2.length) ("", true)).1])
        (flog ++ (if ((fillPool limit rem act).2.getD
            (pick step % (fillPool limit rem act).2.length) ("", true)).2 then []
          else [((fillPool limit rem act).2.getD
            (pick step % (fillPool limit rem act).2.length) ("", true)).1]))
        (c + 1) (tr ++ [(c + 1, total)]) (step + 1) (by omega) (by omega)
      refine ⟨st, hst, hr, ha, hcur, ?_, ?_⟩
      · rw [hp, List.length_append]
        simp only [List.length_cons, List.length_nil]
        omega
      · obtain ⟨k, hk⟩ : ∃ k, rem.length + act.length = k + 1 :=
          ⟨rem.length + act.length - 1, by omega⟩
        have hk2 : (fillPool limit rem act).1.length +
            ((fillPool limit rem act).2.eraseIdx
              (pick step % (fillPool limit rem act).2.length)).length = k := by
          omega
        rw [ht, hk2, hk, List.range'_succ, List.map_cons]
        simp

/-- C3: for every entry list (any per-entry outcomes) and any
concurrency limit and completion order, `extractAll` terminates and its
progress trace is exactly `(0, N), (1, N), …, (N, N)`: `N + 1` calls,
first `(0, N)`, strictly increasing first components, final `(N, N)`. -/
theorem extractAll_progress (entries : List (String × Bool)) (limit : JSNumber)
    (pick : Nat → Nat) :
    ∃ st, extractAllRun entries limit pick = some st ∧
      st.trace = (List.range (entries.length + 1)).map (fun i => (i, entries.length)) ∧
      st.trace.length = entries.length + 1 ∧
      st.trace.head? = some (0, entries.length) ∧
      st.trace.getLast? = some (entries.length, entries.length) ∧
      st.trace.Pairwise (fun a b => a.1 < b.1) := by
  obtain ⟨st, hst, _, _, _, _, ht⟩ :=
    extractLoop_spec (effectiveConcurrencyLimit limit) (effectiveConcurrencyLimit_pos limit)
      pick entries.length (entries.length + 1) entries [] [] [] 0 [(0, entries.length)] 0
      (by simp) (by simp)
  have htrace : st.trace =
      (List.range (entries.length + 1)).map (fun i => (i, entries.length)) := by
    rw [ht, List.range_eq_range', List.range'_succ]
    simp
  refine ⟨st, hst, htrace, ?_, ?_, ?_, ?_⟩
  · rw [htrace]; simp
  · rw [htrace, List.range_eq_range', List.range'_succ, List.map_cons]; rfl
  · rw [htrace, List.range_succ, List.map_append]
    simp
  · rw [htrace]
    exact List.Pairwise.map _ (fun a b hab => hab) (List.pairwise_lt_range _)

/-- The single-entry `extractTo(directory)` of the reader handle: it
awaits the (memoized) decompression and then writes to
`join(directory, entryName)` — with no path validation; modelled as
returning the written path and the bytes. -/
def handleExtractTo (inflateRaw : List Nat → Except String (List Nat)) (buffer : List Nat)
    (entryName : List Char) (compressionType s e : Nat) (directory : List Char) :
    Except String (List Char × List Nat) :=
  match decompressEntry inflateRaw buffer compressionType s e with
  | .error msg => .error msg
  | .ok d => .ok (pjoin directory entryName, d)

/-- C2 (code bug): the handle's `extractTo` performs no path validation —
for the traversal entry `../../etc/passwd` extracted to `out` it succeeds
and writes to `../etc/passwd`, which resolves outside the output
directory (neither equal to the resolved root nor under it); meanwhile
batch `extractAll` indeed never rejects because of a single bad entry:
it terminates normally and advances progress for every entry whatever
each entry's outcome. -/
theorem extractTo_no_path_validation :
    (handleExtractTo (fun _ => .ok []) [] "../../etc/passwd".data STORE 0 0 "out".data =
        .ok ("../etc/passwd".data, []) ∧
      presolve "/base".data "../etc/passwd".data ≠ presolve "/base".data "out".data ∧
      strStartsWith (presolve "/base".data "../etc/passwd".data)
        (presolve "/base".data "out".data ++ ['/']) = false) ∧
    (∀ (entries : List (String × Bool)) (limit : JSNumber) (pick : Nat → Nat),
      ∃ st, extractAllRun entries limit pick = some st ∧ st.current = entries.length) := by
  refine ⟨⟨by decide, by decide, by decide⟩, ?_⟩
  intro entries limit pick
  obtain ⟨st, hst, _, _, hcur, _, _⟩ :=
    extractLoop_spec (effectiveConcurrencyLimit limit) (effectiveConcurrencyLimit_pos limit)
      pick entries.length (entries.length + 1) entries [] [] [] 0 [(0, entries.length)] 0
      (by simp) (by simp)
  exact ⟨st, hst, hcur⟩

theorem fillPool_one (e : String × Bool) (rest : List (String × Bool)) :
    fillPool 1 (e :: rest) [] = (rest, [e]) := by
  rw [fillPool, if_pos (by simp)]
  cases rest with
  | nil => rfl
  | cons f fs =>
    rw [fillPool, if_neg (by simp)]
    simp

theorem extractLoop_one (pick : Nat → Nat) (total : Nat) :
    ∀ (rem : List (String × Bool)) (proc flog : List String) (c : Nat)
      (tr : List (Nat × Nat)) (step : Nat),
      ∃ st, extractLoop total 1 pick (rem.length + 1) step ⟨rem, [], proc, flog, c, tr⟩ =
          some st ∧
        st.processed = proc ++ rem.map Prod.fst ∧ st.remaining = [] ∧ st.active = [] := by
  intro rem
  induction rem with
  | nil =>
    intro proc flog c tr step
    exact ⟨⟨[], [], proc, flog, c, tr⟩, rfl, by simp, rfl, rfl⟩
  | cons e rest ih =>
    intro proc flog c tr step
    obtain ⟨st, hst, hp, hr, ha⟩ := ih (proc ++ [e.1]) (flog ++ if e.2 then [] else [e.1])
      (c + 1) (tr ++ [(c + 1, total)]) (step + 1)
    refine ⟨st, ?_, ?_, hr, ha⟩
    · have hstep : ∀ fuel, extractLoop total 1 pick (fuel + 1) step ⟨e :: rest, [], proc, flog, c, tr⟩ =
          extractLoop total 1 pick fuel (step + 1)
            ⟨rest, [], proc ++ [e.1], flog ++ (if e.2 then [] else [e.1]), c + 1,
              tr ++ [(c + 1, total)]⟩ := by
        intro fuel
        simp only [extractLoop, fillPool_one, List.length_nil, List.length_cons, Nat.zero_add,
          Nat.mod_one, List.getD_cons_zero, List.eraseIdx_cons_zero]
        rw [if_neg (by simp), if_pos (by simp)]
      rw [show (e :: rest).length + 1 = rest.length + 1 + 1 by simp, hstep]
      exact hst
    · rw [hp]
      simp

/-- C4: a zero, negative or non-finite `concurrencyLimit` behaves
identically to `concurrencyLimit = 1`: the run is literally the same,
terminates, and processes every entry of the index exactly once (in
order, nothing dropped). -/
theorem extractAll_clamps_bad_limit (limit : JSNumber)
    (h : jsLtOne limit = true ∨ jsIsFinite limit = false)
    (entries : List (String × Bool)) (pick : Nat → Nat) :
    extractAllRun entries limit pick = extractAllRun entries (JSNumber.num 1) pick ∧
    ∃ st, extractAllRun entries limit pick = some st ∧
      st.processed = entries.map Prod.fst ∧ st.remaining = [] ∧ st.active = [] := by
  have he : effectiveConcurrencyLimit limit = 1 := by
    rcases h with h | h
    · simp [effectiveConcurrencyLimit, h]
    · simp [effectiveConcurrencyLimit, h]
  have h1 : effectiveConcurrencyLimit (JSNumber.num 1) = 1 := by decide
  constructor
  · rw [extractAllRun, extractAllRun, he, h1]
  · rw [extractAllRun, he]
    obtain ⟨st, hst, hp, hr, ha⟩ :=
      extractLoop_one pick entries.length entries [] [] 0 [(0, entries.length)] 0
    exact ⟨st, hst, by simpa using hp, hr, ha⟩

/-- Witness for C4: `concurrencyLimit = 0` is a bad limit and the run
equals the `concurrencyLimit = 1` run on a two-entry index containing a
failing entry. -/
theorem extractAll_clamps_bad_limit_witness :
    (jsLtOne (JSNumber.num 0) = true ∨ jsIsFinite (JSNumber.num 0) = false) ∧
    extractAllRun [("a", true), ("b", false)] (JSNumber.num 0) (fun _ => 0) =
      extractAllRun [("a", true), ("b", false)] (JSNumber.num 1) (fun _ => 0) :=
  ⟨Or.inl (by decide),
   (extractAll_clamps_bad_limit (JSNumber.num 0) (Or.inl (by decide))
      [("a", true), ("b", false)] (fun _ => 0)).1⟩

end Unzip
